import Mathlib

/-!
Verification of the cs-nades interactive map viewport against its design
specification.  The definitions below are a shallow embedding of
`src/components/KonvaMap.tsx`, `src/components/useDrawing.ts` and the
stroke-list handlers of `src/pages/MapPage.tsx`.  JavaScript numbers are
modelled as exact rationals (`ℚ`); `Math.floor`/`Math.round` become the
integer floor and the half-up rounding `⌊v + 1/2⌋`.
-/

/-- A 2D point `{ x, y }`, used both for screen pointers and native map
coordinates. -/
structure Pt where
  x : ℚ
  y : ℚ
  deriving DecidableEq

/-- Interaction mode of the viewport (`type Mode` in KonvaMap.tsx). -/
inductive Mode where
  | browse
  | place
  | edit
  | draw
  deriving DecidableEq

/-- Nade type enumeration (`NadeType` in data/types). -/
inductive NadeType where
  | smoke
  | flash
  | molotov
  | he
  deriving DecidableEq

/-- KonvaMap.tsx `clamp`: `Math.max(min, Math.min(max, n))`. -/
def clamp (n lo hi : ℚ) : ℚ := max lo (min hi n)

/-- JavaScript `Math.round`: rounds to the nearest integer, ties toward
positive infinity, i.e. `⌊v + 1/2⌋`. -/
def jsRound (v : ℚ) : ℤ := ⌊v + 1 / 2⌋

/-- KonvaMap.tsx `snapValue`: `Math.round(v / grid) * grid`. -/
def snapValue (v grid : ℚ) : ℚ := (jsRound (v / grid) : ℚ) * grid

/-- Display/viewport parameters of the `KonvaMap` component. -/
structure ViewportCfg where
  width : ℚ
  height : ℚ
  nativeSize : ℚ
  minZoom : ℚ
  maxZoom : ℚ
  deriving DecidableEq

/-- KonvaMap.tsx: `const baseScale = width / nativeSize`. -/
def baseScale (cfg : ViewportCfg) : ℚ := cfg.width / cfg.nativeSize

/-- Mutable viewport state: `zoomFactor` and `stagePos`. -/
structure ViewState where
  zoomFactor : ℚ
  stagePos : Pt
  deriving DecidableEq

/-- KonvaMap.tsx: `const stageScale = baseScale * zoomFactor`. -/
def stageScale (cfg : ViewportCfg) (vs : ViewState) : ℚ :=
  baseScale cfg * vs.zoomFactor

/-- KonvaMap.tsx `toNative`: `(pointer - stagePos) / stageScale`,
componentwise. -/
def toNative (cfg : ViewportCfg) (vs : ViewState) (pointer : Pt) : Pt :=
  ⟨(pointer.x - vs.stagePos.x) / stageScale cfg vs,
   (pointer.y - vs.stagePos.y) / stageScale cfg vs⟩

/-- KonvaMap.tsx `clampStagePos`: per-axis clamp of the stage offset.
`mapPx >= width` is written `width ≤ mapPx`. -/
def clampStagePos (cfg : ViewportCfg) (pos : Pt) (scale : ℚ) : Pt :=
  let mapPx := cfg.nativeSize * scale
  let minX := if cfg.width ≤ mapPx then cfg.width - mapPx else (cfg.width - mapPx) / 2
  let maxX := if cfg.width ≤ mapPx then 0 else (cfg.width - mapPx) / 2
  let minY := if cfg.height ≤ mapPx then cfg.height - mapPx else (cfg.height - mapPx) / 2
  let maxY := if cfg.height ≤ mapPx then 0 else (cfg.height - mapPx) / 2
  ⟨clamp pos.x minX maxX, clamp pos.y minY maxY⟩

/-- The body of KonvaMap.tsx `handleWheel` up to (but not including) the
final boundary clamp: the clamped next zoom factor and the unclamped
`newPos` that keeps the pointer over the same native point.
`e.evt.deltaY > 0` selects direction `-1`, otherwise `1`. -/
def wheelTarget (cfg : ViewportCfg) (vs : ViewState) (pointer : Pt) (deltaY : ℚ) : ViewState :=
  let oldScale := stageScale cfg vs
  let scaleBy : ℚ := 108 / 100
  let direction : ℤ := if 0 < deltaY then -1 else 1
  let nextZoom :=
    clamp (if 0 < direction then vs.zoomFactor * scaleBy else vs.zoomFactor / scaleBy)
      cfg.minZoom cfg.maxZoom
  let newScale := baseScale cfg * nextZoom
  let mousePointTo : Pt :=
    ⟨(pointer.x - vs.stagePos.x) / oldScale, (pointer.y - vs.stagePos.y) / oldScale⟩
  ⟨nextZoom, ⟨pointer.x - mousePointTo.x * newScale, pointer.y - mousePointTo.y * newScale⟩⟩

/-- KonvaMap.tsx `handleWheel`: a missing pointer position is a no-op;
otherwise apply `wheelTarget` and clamp the resulting stage position. -/
def handleWheel (cfg : ViewportCfg) (vs : ViewState) (pointer : Option Pt) (deltaY : ℚ) :
    ViewState :=
  match pointer with
  | none => vs
  | some p =>
    let t := wheelTarget cfg vs p deltaY
    ⟨t.zoomFactor, clampStagePos cfg t.stagePos (baseScale cfg * t.zoomFactor)⟩

/-- A freehand stroke (`Stroke` in data/types): identity, tool tag, stroke
width and the flattened point sequence `[x1, y1, x2, y2, ...]`.  The
source generates ids with `crypto.randomUUID()`; ids are modelled as
naturals supplied by the event. -/
structure Stroke where
  id : ℕ
  tool : String
  width : ℚ
  points : List ℚ
  deriving DecidableEq

/-- useDrawing.ts `currentStrokeRef` payload: the public (smoothed) stroke
together with the raw point history. -/
structure CurrentStroke where
  stroke : Stroke
  rawPoints : List ℚ
  deriving DecidableEq

/-- State owned by the `useDrawing` hook, together with the host-owned
finalized stroke list it mutates through `setStrokes`. -/
structure DrawingState where
  isDrawing : Bool
  liveStroke : Option Stroke
  currentStroke : Option CurrentStroke
  strokes : List Stroke
  deriving DecidableEq

/-- Parameters of the `useDrawing` hook: `nativeSize`, the injected
`toNative` conversion, and the decimation/smoothing constants (source
defaults 2 and 3). -/
structure DrawCfg where
  nativeSize : ℚ
  toNative : Pt → Pt
  minPointDistance : ℚ := 2
  smoothingWindow : ℕ := 3

/-- The bounds rejection test shared by the input handlers:
`p.x < 0 || p.y < 0 || p.x > nativeSize || p.y > nativeSize`. -/
def outOfBoundsPt (nativeSize : ℚ) (p : Pt) : Bool :=
  decide (p.x < 0) || decide (p.y < 0) || decide (nativeSize < p.x) || decide (nativeSize < p.y)

/-- useDrawing.ts: `rawPoints[rawPoints.length - 2]`. -/
def lastRawX (c : CurrentStroke) : ℚ := c.rawPoints.getD (c.rawPoints.length - 2) 0

/-- useDrawing.ts: `rawPoints[rawPoints.length - 1]`. -/
def lastRawY (c : CurrentStroke) : ℚ := c.rawPoints.getD (c.rawPoints.length - 1) 0

/-- The smoothing summation loop of `appendPoint`:
`for (i = 0; i < windowCount; i += 1) { idx = nextRaw.length - 2 - i*2;
sumX += nextRaw[idx]; sumY += nextRaw[idx + 1] }`. -/
def sumLoop (nextRaw : List ℚ) : ℕ → ℚ × ℚ
  | 0 => (0, 0)
  | n + 1 =>
    let s := sumLoop nextRaw n
    let idx := nextRaw.length - 2 - n * 2
    (s.1 + nextRaw.getD idx 0, s.2 + nextRaw.getD (idx + 1) 0)

/-- useDrawing.ts `startStroke`: missing pointer or out-of-bounds native
position is a no-op; otherwise begin a capture with a single point pair. -/
def startStroke (cfg : DrawCfg) (id : ℕ) (pointer : Option Pt) (ds : DrawingState) :
    DrawingState :=
  match pointer with
  | none => ds
  | some pointer =>
    let p := cfg.toNative pointer
    if outOfBoundsPt cfg.nativeSize p then ds
    else
      let next : Stroke := ⟨id, "pen", 4, [p.x, p.y]⟩
      { ds with isDrawing := true, currentStroke := some ⟨next, [p.x, p.y]⟩,
                liveStroke := some next }

/-- useDrawing.ts `appendPoint`: bounds rejection, decimation against the
last raw point, then a trailing moving average over the last
`min(smoothingWindow, nextRaw.length / 2)` raw pairs.  The source compares
`Math.hypot(dx, dy) < minPointDistance`; over exact rationals (with the
nonnegative distance threshold 2) that is exactly
`dx^2 + dy^2 < minPointDistance^2`. -/
def appendPoint (cfg : DrawCfg) (pointer : Option Pt) (ds : DrawingState) : DrawingState :=
  match pointer with
  | none => ds
  | some pointer =>
    let p := cfg.toNative pointer
    if outOfBoundsPt cfg.nativeSize p then ds
    else
      match ds.currentStroke with
      | none => ds
      | some current =>
        let dx := p.x - lastRawX current
        let dy := p.y - lastRawY current
        if dx ^ 2 + dy ^ 2 < cfg.minPointDistance ^ 2 then ds
        else
          let nextRaw := current.rawPoints ++ [p.x, p.y]
          let windowCount := min cfg.smoothingWindow (nextRaw.length / 2)
          let s := sumLoop nextRaw windowCount
          let smoothX := s.1 / (windowCount : ℚ)
          let smoothY := s.2 / (windowCount : ℚ)
          let nextStroke := { current.stroke with points := current.stroke.points ++ [smoothX, smoothY] }
          { ds with currentStroke := some ⟨nextStroke, nextRaw⟩, liveStroke := some nextStroke }

/-- useDrawing.ts `finishStroke`: append the in-progress stroke (if any) to
the finalized list, clear the capture state. -/
def finishStroke (ds : DrawingState) : DrawingState :=
  { isDrawing := false
    liveStroke := none
    currentStroke := none
    strokes :=
      match ds.currentStroke with
      | some current => ds.strokes ++ [current.stroke]
      | none => ds.strokes }

/-- useDrawing.ts `handlePointerDown`: gated on `mode === "draw"`. -/
def handlePointerDown (cfg : DrawCfg) (mode : Mode) (id : ℕ) (pointer : Option Pt)
    (ds : DrawingState) : DrawingState :=
  if mode = Mode.draw then startStroke cfg id pointer ds else ds

/-- useDrawing.ts `handlePointerMove`: gated on `mode === "draw"` and
`isDrawing`. -/
def handlePointerMove (cfg : DrawCfg) (mode : Mode) (pointer : Option Pt)
    (ds : DrawingState) : DrawingState :=
  if mode = Mode.draw ∧ ds.isDrawing = true then appendPoint cfg pointer ds else ds

/-- useDrawing.ts `handlePointerUp`: gated on `mode === "draw"`. -/
def handlePointerUp (mode : Mode) (ds : DrawingState) : DrawingState :=
  if mode = Mode.draw then finishStroke ds else ds

/-- A placement request as emitted by `onPlaceSpot`. -/
structure PlaceEvent where
  x : ℚ
  y : ℚ
  type : NadeType
  deriving DecidableEq

/-- KonvaMap.tsx `handlePointerDownEvent`: in draw mode delegate to the
drawing hook; in place mode, clicks on the background whose native
position is in bounds emit a placement request; everything else is a
no-op.  Returns the updated drawing state and the optional emission. -/
def handlePointerDownEvent (cfg : DrawCfg) (mode : Mode) (id : ℕ) (pointer : Option Pt)
    (isBackground : Bool) (placementType : NadeType) (ds : DrawingState) :
    DrawingState × Option PlaceEvent :=
  match pointer with
  | none => (ds, none)
  | some pt =>
    if mode = Mode.draw then (handlePointerDown cfg Mode.draw id (some pt) ds, none)
    else if mode = Mode.place then
      if isBackground = false then (ds, none)
      else
        let p := cfg.toNative pt
        if outOfBoundsPt cfg.nativeSize p then (ds, none)
        else (ds, some ⟨p.x, p.y, placementType⟩)
    else (ds, none)

/-- KonvaMap.tsx marker `onDragEnd`: read the released native position; in
edit mode with snapping enabled, snap each axis; emit `onMoveSpot` with
the result.  No bounds check is performed. -/
def onDragEnd (mode : Mode) (snapToGrid : Bool) (gridSize : ℚ) (pos : Pt) : Pt :=
  if mode = Mode.edit ∧ snapToGrid = true then
    ⟨snapValue pos.x gridSize, snapValue pos.y gridSize⟩
  else pos

/-- MapPage.tsx Undo button: `setStrokes(strokes.slice(0, -1))`; JavaScript
`slice(0, -1)` drops the last element and is the identity on `[]`. -/
def undoStrokes (strokes : List Stroke) : List Stroke := strokes.dropLast

/-- MapPage.tsx Clear button: `setStrokes([])`. -/
def clearStrokes : List Stroke := []

/-- Pointer/mode events delivered to the viewport, in source order.  Down
events carry the fresh stroke identity the source would draw from
`crypto.randomUUID()`. -/
inductive Ev where
  | pointerDown (id : ℕ) (pointer : Option Pt)
  | pointerMove (pointer : Option Pt)
  | pointerUp
  | setMode (m : Mode)

/-- The externally set mode together with the drawing state. -/
structure AppState where
  mode : Mode
  ds : DrawingState
  deriving DecidableEq

/-- One event step: pointer events are dispatched to the `useDrawing`
handlers with the mode current at dispatch time; `setMode` is the host
switching the mode prop. -/
def step (cfg : DrawCfg) (s : AppState) : Ev → AppState
  | Ev.pointerDown id pointer => { s with ds := handlePointerDown cfg s.mode id pointer s.ds }
  | Ev.pointerMove pointer => { s with ds := handlePointerMove cfg s.mode pointer s.ds }
  | Ev.pointerUp => { s with ds := handlePointerUp s.mode s.ds }
  | Ev.setMode m => { s with mode := m }

/-- Run a sequence of events from a starting state. -/
def run (cfg : DrawCfg) (s : AppState) (evs : List Ev) : AppState :=
  evs.foldl (step cfg) s

/-- Acceptance of a move point by `appendPoint`: a capture is in progress,
the native position is in bounds, and the decimation threshold is met. -/
def acceptsB (cfg : DrawCfg) (ds : DrawingState) (pointer : Pt) : Bool :=
  match ds.currentStroke with
  | none => false
  | some c =>
    let p := cfg.toNative pointer
    !outOfBoundsPt cfg.nativeSize p &&
      decide (cfg.minPointDistance ^ 2 ≤ (p.x - lastRawX c) ^ 2 + (p.y - lastRawY c) ^ 2)

/-- A run of move points each accepted by `appendPoint` at its step. -/
inductive AcceptedMoves (cfg : DrawCfg) : DrawingState → List Pt → DrawingState → Prop where
  | nil (s : DrawingState) : AcceptedMoves cfg s [] s
  | cons {s : DrawingState} {p : Pt} {ps : List Pt} {s' : DrawingState}
      (hacc : acceptsB cfg s p = true)
      (htail : AcceptedMoves cfg (appendPoint cfg (some p) s) ps s') :
      AcceptedMoves cfg s (p :: ps) s'

/-- Concrete drawing configuration used by the concrete instances below:
`nativeSize = 1200` with the identity pointer conversion and the source
defaults. -/
def cfgD : DrawCfg := ⟨1200, fun p => p, 2, 3⟩

/-- The initial drawing state: idle, no live stroke, no finalized strokes. -/
def ds0 : DrawingState := ⟨false, none, none, []⟩

/-- A concrete drawing state with a capture in progress (used by the
concrete instances below): one raw/public point history along the x axis,
last raw point `(20, 0)`. -/
def strokeC : Stroke := ⟨0, "pen", 4, [0, 0]⟩

/-- The in-progress capture payload of `dsLive5`. -/
def curC : CurrentStroke := ⟨strokeC, [0, 0, 10, 0, 20, 0]⟩

/-- A drawing state capturing `curC`. -/
def dsLive5 : DrawingState := ⟨true, some strokeC, some curC, []⟩

theorem clamp_const (n c : ℚ) : clamp n c c = c :=
  max_eq_left (min_le_left c n)

theorem lo_le_clamp (n lo hi : ℚ) : lo ≤ clamp n lo hi :=
  le_max_left lo (min hi n)

theorem clamp_le_hi (n lo hi : ℚ) (h : lo ≤ hi) : clamp n lo hi ≤ hi :=
  max_le h (min_le_left hi n)

/-- C7: on each axis, when `nativeSize * scale < displaySize` the clamped
offset is exactly the centering offset `(displaySize - nativeSize*scale)/2`
regardless of the candidate; when `nativeSize * scale ≥ displaySize` the
clamped offset lies in `[displaySize - nativeSize*scale, 0]`. -/
theorem clampStagePos_centering_and_range (cfg : ViewportCfg) (pos : Pt) (scale : ℚ) :
    (cfg.nativeSize * scale < cfg.width →
      (clampStagePos cfg pos scale).x = (cfg.width - cfg.nativeSize * scale) / 2) ∧
    (cfg.width ≤ cfg.nativeSize * scale →
      cfg.width - cfg.nativeSize * scale ≤ (clampStagePos cfg pos scale).x ∧
        (clampStagePos cfg pos scale).x ≤ 0) ∧
    (cfg.nativeSize * scale < cfg.height →
      (clampStagePos cfg pos scale).y = (cfg.height - cfg.nativeSize * scale) / 2) ∧
    (cfg.height ≤ cfg.nativeSize * scale →
      cfg.height - cfg.nativeSize * scale ≤ (clampStagePos cfg pos scale).y ∧
        (clampStagePos cfg pos scale).y ≤ 0) := by
  unfold clampStagePos
  refine ⟨fun h => ?_, fun h => ?_, fun h => ?_, fun h => ?_⟩
  · simp only [if_neg (not_le.mpr h)]
    exact clamp_const _ _
  · simp only [if_pos h]
    exact ⟨lo_le_clamp _ _ _, clamp_le_hi _ _ _ (sub_nonpos.mpr h)⟩
  · simp only [if_neg (not_le.mpr h)]
    exact clamp_const _ _
  · simp only [if_pos h]
    exact ⟨lo_le_clamp _ _ _, clamp_le_hi _ _ _ (sub_nonpos.mpr h)⟩

/-- Witness for C7 at a concrete input: a 600-wide frame showing a
1200-unit map at scale 1/4 centers the x offset at 150 whatever the
candidate offset was. -/
theorem clampStagePos_centering_witness :
    (clampStagePos ⟨600, 600, 1200, 1, 4⟩ ⟨123, 45⟩ (1 / 4)).x = 150 :=
  ((clampStagePos_centering_and_range ⟨600, 600, 1200, 1, 4⟩ ⟨123, 45⟩ (1 / 4)).1
    (by norm_num)).trans (by norm_num)

/-- C8: a marker released in edit mode with snapping on grid 20 at native
position (213, 407) is reported at (220, 400); in general each axis of the
emitted position is `round(v / gridSize) * gridSize` (with `round` the
Mathlib half-up rounding, matching `Math.round`). -/
theorem onDragEnd_snap_correct :
    onDragEnd Mode.edit true 20 ⟨213, 407⟩ = ⟨220, 400⟩ ∧
    ∀ (grid : ℚ) (pos : Pt), onDragEnd Mode.edit true grid pos =
      ⟨(round (pos.x / grid) : ℚ) * grid, (round (pos.y / grid) : ℚ) * grid⟩ := by
  constructor
  · norm_num [onDragEnd, snapValue, jsRound]
  · intro grid pos
    simp [onDragEnd, snapValue, jsRound, round_eq]

/-- C9: undo removes exactly the most recent finalized stroke and leaves
the rest unchanged, undo on an empty list is a no-op, and clear yields the
empty list. -/
theorem undo_clear_correct :
    (∀ (l : List Stroke) (s : Stroke), undoStrokes (l ++ [s]) = l) ∧
    undoStrokes [] = [] ∧ clearStrokes = [] := by
  refine ⟨fun l s => ?_, rfl, rfl⟩
  simp [undoStrokes]

/-- Counterexample to C2: the marker drag-release handler performs no
bounds check — released in edit mode at native position (-50, 1300) with
snapping off, it reports exactly (-50, 1300) through `onMoveSpot`, a
position outside `[0, 1200]` on both axes. -/
theorem dragEnd_no_bounds_check_cex :
    onDragEnd Mode.edit false 20 ⟨-50, 1300⟩ = ⟨-50, 1300⟩ ∧
    outOfBoundsPt 1200 (onDragEnd Mode.edit false 20 ⟨-50, 1300⟩) = true := by decide

/-- C2 (amended): out-of-bounds native coordinates are rejected with no
state change by the placement click, stroke start, and stroke append
handlers (drag release, by the counterexample, checks nothing). -/
theorem out_of_bounds_rejected (cfg : DrawCfg) (mode : Mode) (id : ℕ) (pt : Pt)
    (bg : Bool) (pty : NadeType) (ds : DrawingState)
    (h : outOfBoundsPt cfg.nativeSize (cfg.toNative pt) = true) :
    startStroke cfg id (some pt) ds = ds ∧
    appendPoint cfg (some pt) ds = ds ∧
    handlePointerDownEvent cfg mode id (some pt) bg pty ds = (ds, none) := by
  refine ⟨?_, ?_, ?_⟩
  · simp [startStroke, h]
  · simp [appendPoint, h]
  · cases mode <;> cases bg <;>
      simp [handlePointerDownEvent, handlePointerDown, startStroke, h]

/-- Witness for C2 (amended) at the concrete out-of-bounds point (-1, 5). -/
theorem out_of_bounds_rejected_witness :
    startStroke cfgD 0 (some ⟨-1, 5⟩) ds0 = ds0 ∧
    appendPoint cfgD (some ⟨-1, 5⟩) ds0 = ds0 ∧
    handlePointerDownEvent cfgD Mode.place 0 (some ⟨-1, 5⟩) true NadeType.smoke ds0 =
      (ds0, none) :=
  out_of_bounds_rejected cfgD Mode.place 0 ⟨-1, 5⟩ true NadeType.smoke ds0 (by decide)

/-- Counterexample to C3: switching away from draw mid-capture does not
discard the live stroke — after the mode change the live stroke is still
present, and once the mode returns to draw a pointer-up finalizes it into
the stroke collection. -/
theorem mode_change_keeps_live_stroke_cex :
    (run cfgD ⟨Mode.draw, ds0⟩
        [Ev.pointerDown 0 (some ⟨10, 10⟩), Ev.setMode Mode.browse]).ds.liveStroke
      = some ⟨0, "pen", 4, [10, 10]⟩ ∧
    (run cfgD ⟨Mode.draw, ds0⟩
        [Ev.pointerDown 0 (some ⟨10, 10⟩), Ev.setMode Mode.browse,
         Ev.setMode Mode.draw, Ev.pointerUp]).ds.strokes
      = [⟨0, "pen", 4, [10, 10]⟩] := by decide

/-- C3 (amended): a mode change away from draw merely suspends the
capture: while the mode is not draw, every pointer event leaves the
drawing state (live stroke included) unchanged; the retained stroke is
finalized by the next pointer-up in draw mode. -/
theorem mode_change_suspends_capture (cfg : DrawCfg) (s : AppState) (id : ℕ)
    (pointer : Option Pt) (h : s.mode ≠ Mode.draw) :
    (step cfg s (Ev.pointerDown id pointer)).ds = s.ds ∧
    (step cfg s (Ev.pointerMove pointer)).ds = s.ds ∧
    (step cfg s Ev.pointerUp).ds = s.ds := by
  refine ⟨?_, ?_, ?_⟩ <;>
    simp [step, handlePointerDown, handlePointerMove, handlePointerUp, h]

/-- Witness for C3 (amended): in browse mode, pointer events leave a
mid-capture drawing state untouched. -/
theorem mode_change_suspends_capture_witness :
    (step cfgD ⟨Mode.browse, dsLive5⟩ (Ev.pointerDown 1 (some ⟨30, 30⟩))).ds = dsLive5 ∧
    (step cfgD ⟨Mode.browse, dsLive5⟩ (Ev.pointerMove (some ⟨30, 30⟩))).ds = dsLive5 ∧
    (step cfgD ⟨Mode.browse, dsLive5⟩ Ev.pointerUp).ds = dsLive5 :=
  mode_change_suspends_capture cfgD ⟨Mode.browse, dsLive5⟩ 1 (some ⟨30, 30⟩) (by decide)

/-- C6: a move point whose native position is within `minPointDistance`
of the last raw recorded point (squared comparison, exactly the source's
`Math.hypot(dx, dy) < minPointDistance`) leaves the drawing state fully
unchanged. -/
theorem decimation_no_state_change (cfg : DrawCfg) (ds : DrawingState) (pt : Pt)
    (c : CurrentStroke) (hc : ds.currentStroke = some c)
    (hdist : ((cfg.toNative pt).x - lastRawX c) ^ 2 + ((cfg.toNative pt).y - lastRawY c) ^ 2
        < cfg.minPointDistance ^ 2) :
    appendPoint cfg (some pt) ds = ds := by
  unfold appendPoint
  by_cases hb : outOfBoundsPt cfg.nativeSize (cfg.toNative pt) = true
  · simp [hb]
  · simp only [Bool.not_eq_true] at hb
    simp [hb, hc, hdist]

/-- Witness for C6: appending (21, 0) one unit from the last raw point
(20, 0) changes nothing. -/
theorem decimation_no_state_change_witness :
    appendPoint cfgD (some ⟨21, 0⟩) dsLive5 = dsLive5 :=
  decimation_no_state_change cfgD dsLive5 ⟨21, 0⟩ curC rfl
    (by norm_num [cfgD, curC, lastRawX, lastRawY])

/-- C10: in draw mode, a pointer-down at an in-bounds position followed
immediately by pointer-up commits exactly one stroke holding the single
coordinate pair of the click, and clears the live stroke. -/
theorem click_stroke_committed (cfg : DrawCfg) (id : ℕ) (pt : Pt) (ds : DrawingState)
    (h : outOfBoundsPt cfg.nativeSize (cfg.toNative pt) = false) :
    (handlePointerUp Mode.draw (handlePointerDown cfg Mode.draw id (some pt) ds)).strokes
      = ds.strokes ++ [⟨id, "pen", 4, [(cfg.toNative pt).x, (cfg.toNative pt).y]⟩] ∧
    (handlePointerUp Mode.draw (handlePointerDown cfg Mode.draw id (some pt) ds)).liveStroke
      = none := by
  simp [handlePointerUp, handlePointerDown, startStroke, finishStroke, h]

/-- Witness for C10 at the concrete click (10, 10). -/
theorem click_stroke_committed_witness :
    (handlePointerUp Mode.draw (handlePointerDown cfgD Mode.draw 0 (some ⟨10, 10⟩) ds0)).strokes
      = ds0.strokes ++ [⟨0, "pen", 4, [(cfgD.toNative ⟨10, 10⟩).x, (cfgD.toNative ⟨10, 10⟩).y]⟩] ∧
    (handlePointerUp Mode.draw (handlePointerDown cfgD Mode.draw 0 (some ⟨10, 10⟩) ds0)).liveStroke
      = none :=
  click_stroke_committed cfgD 0 ⟨10, 10⟩ ds0 (by decide)

/-- Concrete viewport configuration: a 600×600 frame over a 1200-unit map
with zoom range [1, 4] (so `baseScale = 1/2`). -/
def cfgV : ViewportCfg := ⟨600, 600, 1200, 1, 4⟩

/-- Counterexample to C1: zooming out one wheel step (deltaY = 1) from
zoom 27/25 with the pointer at the bottom-right corner (600, 600) — the
boundary clamp moves the computed stage position from 400/9 back to 0, so
the native point under the pointer jumps from 10000/9 to 1200. -/
theorem wheel_zoom_not_invariant_cex :
    toNative cfgV (handleWheel cfgV ⟨27/25, ⟨0, 0⟩⟩ (some ⟨600, 600⟩) 1) ⟨600, 600⟩
      ≠ toNative cfgV ⟨27/25, ⟨0, 0⟩⟩ ⟨600, 600⟩ := by
  norm_num [toNative, handleWheel, wheelTarget, clampStagePos, clamp, stageScale, baseScale, cfgV,
    max_def, min_def]

theorem wheelTarget_zoom_pos (cfg : ViewportCfg) (vs : ViewState) (p : Pt) (deltaY : ℚ)
    (hz : 0 < cfg.minZoom) : 0 < (wheelTarget cfg vs p deltaY).zoomFactor := by
  simp only [wheelTarget]
  exact lt_of_lt_of_le hz (lo_le_clamp _ _ _)

theorem div_cancel_sub (px m ns : ℚ) (h : ns ≠ 0) : (px - (px - m * ns)) / ns = m := by
  rw [sub_sub_cancel, mul_div_cancel_right₀ _ h]

/-- C1 (amended): a wheel-zoom step keeps the native point under the
pointer fixed exactly when the boundary clamp does not move the computed
stage position (hypothesis `hclamp`); when the clamp binds, the
counterexample above shows the point shifts. -/
theorem wheel_zoom_cursor_invariant (cfg : ViewportCfg) (vs : ViewState) (p : Pt) (deltaY : ℚ)
    (hw : 0 < cfg.width) (hn : 0 < cfg.nativeSize) (hz : 0 < cfg.minZoom)
    (hclamp : clampStagePos cfg (wheelTarget cfg vs p deltaY).stagePos
        (baseScale cfg * (wheelTarget cfg vs p deltaY).zoomFactor)
      = (wheelTarget cfg vs p deltaY).stagePos) :
    toNative cfg (handleWheel cfg vs (some p) deltaY) p = toNative cfg vs p := by
  have hbs : 0 < baseScale cfg := div_pos hw hn
  have hzf : 0 < (wheelTarget cfg vs p deltaY).zoomFactor := wheelTarget_zoom_pos cfg vs p deltaY hz
  have hns : baseScale cfg * (wheelTarget cfg vs p deltaY).zoomFactor ≠ 0 :=
    ne_of_gt (mul_pos hbs hzf)
  simp only [handleWheel]
  rw [hclamp]
  simp only [toNative, stageScale, wheelTarget]
  simp only [Pt.mk.injEq]
  constructor
  · exact div_cancel_sub _ _ _ (by simpa [wheelTarget] using hns)
  · exact div_cancel_sub _ _ _ (by simpa [wheelTarget] using hns)

/-- Witness for C1 (amended): a zoom-in step from zoom 1 at pointer (0, 0)
leaves the clamp inactive, and the native point under the pointer is
preserved. -/
theorem wheel_zoom_cursor_invariant_witness :
    toNative cfgV (handleWheel cfgV ⟨1, ⟨0, 0⟩⟩ (some ⟨0, 0⟩) (-1)) ⟨0, 0⟩
      = toNative cfgV ⟨1, ⟨0, 0⟩⟩ ⟨0, 0⟩ :=
  wheel_zoom_cursor_invariant cfgV ⟨1, ⟨0, 0⟩⟩ ⟨0, 0⟩ (-1)
    (by norm_num [cfgV]) (by norm_num [cfgV]) (by norm_num [cfgV])
    (by norm_num [wheelTarget, clampStagePos, clamp, stageScale, baseScale, cfgV,
      max_def, min_def])

/-- The success-path result of `appendPoint` for an accepted native point
`q`: raw history extended by the pair, public stroke extended by the
windowed moving average (proof-layer abbreviation of the source's success
branch). -/
def appendResult (cfg : DrawCfg) (c : CurrentStroke) (q : Pt) : CurrentStroke :=
  let nextRaw := c.rawPoints ++ [q.x, q.y]
  let windowCount := min cfg.smoothingWindow (nextRaw.length / 2)
  let s := sumLoop nextRaw windowCount
  ⟨{ c.stroke with points := c.stroke.points ++
      [s.1 / (windowCount : ℚ), s.2 / (windowCount : ℚ)] }, nextRaw⟩

theorem appendPoint_accepted (cfg : DrawCfg) (ds : DrawingState) (pt : Pt) (c : CurrentStroke)
    (hc : ds.currentStroke = some c) (hacc : acceptsB cfg ds pt = true) :
    appendPoint cfg (some pt) ds =
      { ds with currentStroke := some (appendResult cfg c (cfg.toNative pt)),
                liveStroke := some (appendResult cfg c (cfg.toNative pt)).stroke } := by
  simp only [acceptsB, hc, Bool.and_eq_true, Bool.not_eq_true', decide_eq_true_eq] at hacc
  simp only [appendPoint, hc, hacc.1, Bool.false_eq_true, if_false, appendResult]
  rw [if_neg (not_lt.mpr hacc.2)]

theorem acceptedMoves_invariant (cfg : DrawCfg) {s s' : DrawingState} {ps : List Pt}
    (hrun : AcceptedMoves cfg s ps s') :
    ∀ c : CurrentStroke, s.currentStroke = some c →
      ∃ c' : CurrentStroke, s'.currentStroke = some c' ∧
        c'.stroke.points.length = c.stroke.points.length + 2 * ps.length ∧
        s'.strokes = s.strokes := by
  induction hrun with
  | nil s => exact fun c hc => ⟨c, hc, by simp, rfl⟩
  | @cons s p ps s' hacc htail ih =>
    intro c hc
    have hstep := appendPoint_accepted cfg s p c hc hacc
    obtain ⟨c', h1, h2, h3⟩ := ih (appendResult cfg c (cfg.toNative p)) (by rw [hstep])
    refine ⟨c', h1, ?_, ?_⟩
    · rw [h2]
      simp only [appendResult, List.length_append, List.length_cons, List.length_nil]
      omega
    · rw [h3, hstep]

/-- C4 (amended): a draw gesture that starts at an in-bounds point and
appends `k` accepted move points commits, on finish, exactly one stroke
whose point sequence has length `2 * (k + 1)` — the starting pair plus one
pair per accepted move — and clears the live stroke and capture state. -/
theorem draw_round_trip (cfg : DrawCfg) (id : ℕ) (p0 : Pt) (ps : List Pt) (s0 s1 : DrawingState)
    (h0 : outOfBoundsPt cfg.nativeSize (cfg.toNative p0) = false)
    (hrun : AcceptedMoves cfg (startStroke cfg id (some p0) s0) ps s1) :
    ∃ st : Stroke, (finishStroke s1).strokes = s0.strokes ++ [st] ∧
      st.points.length = 2 * (ps.length + 1) ∧
      (finishStroke s1).liveStroke = none ∧ (finishStroke s1).currentStroke = none := by
  have hstart : (startStroke cfg id (some p0) s0).currentStroke =
      some ⟨⟨id, "pen", 4, [(cfg.toNative p0).x, (cfg.toNative p0).y]⟩,
            [(cfg.toNative p0).x, (cfg.toNative p0).y]⟩ := by
    simp [startStroke, h0]
  obtain ⟨c', h1, h2, h3⟩ := acceptedMoves_invariant cfg hrun _ hstart
  have hstrokes : (startStroke cfg id (some p0) s0).strokes = s0.strokes := by
    simp [startStroke, h0]
  refine ⟨c'.stroke, ?_, ?_, rfl, rfl⟩
  · simp only [finishStroke, h1, h3, hstrokes]
  · rw [h2]
    simp only [List.length_cons, List.length_nil]
    omega

/-- Counterexample to C4 as stated: starting at (10, 10) and appending the
single accepted point (20, 20) yields a finalized stroke of point-sequence
length 4 (the start pair plus the smoothed appended pair (15, 15)), not
`2 * k = 2`. -/
theorem draw_round_trip_cex :
    (finishStroke (appendPoint cfgD (some ⟨20, 20⟩)
        (startStroke cfgD 0 (some ⟨10, 10⟩) ds0))).strokes
      = [⟨0, "pen", 4, [10, 10, 15, 15]⟩] ∧ (2 * 1 : ℕ) ≠ 4 := by
  constructor
  · norm_num [startStroke, appendPoint, finishStroke, outOfBoundsPt, lastRawX, lastRawY,
      sumLoop, cfgD, ds0, Nat.min_def]
  · omega

/-- Witness for C4 (amended): the same concrete one-move gesture, through
the general theorem. -/
theorem draw_round_trip_witness :
    ∃ st : Stroke,
      (finishStroke (appendPoint cfgD (some ⟨20, 20⟩)
          (startStroke cfgD 0 (some ⟨10, 10⟩) ds0))).strokes = ds0.strokes ++ [st] ∧
      st.points.length = 2 * (([⟨20, 20⟩] : List Pt).length + 1) ∧
      (finishStroke (appendPoint cfgD (some ⟨20, 20⟩)
          (startStroke cfgD 0 (some ⟨10, 10⟩) ds0))).liveStroke = none ∧
      (finishStroke (appendPoint cfgD (some ⟨20, 20⟩)
          (startStroke cfgD 0 (some ⟨10, 10⟩) ds0))).currentStroke = none :=
  draw_round_trip cfgD 0 ⟨10, 10⟩ [⟨20, 20⟩] ds0 _
    (by norm_num [cfgD, outOfBoundsPt])
    (AcceptedMoves.cons
      (by norm_num [acceptsB, startStroke, outOfBoundsPt, lastRawX, lastRawY, cfgD, ds0])
      (AcceptedMoves.nil _))

/-- Spec-side definition: sum of the x coordinates (even positions) of a
flattened point list. -/
def sumXs : List ℚ → ℚ
  | [] => 0
  | [x] => x
  | x :: _ :: t => x + sumXs t

/-- Spec-side definition: sum of the y coordinates (odd positions) of a
flattened point list. -/
def sumYs : List ℚ → ℚ
  | [] => 0
  | [_] => 0
  | _ :: y :: t => y + sumYs t

/-- Spec-side definition: the last `w` coordinate pairs of a flattened
point list. -/
def lastWindow (l : List ℚ) (w : ℕ) : List ℚ := l.drop (l.length - 2 * w)

theorem sumLoop_eq_window (l : List ℚ) : ∀ w : ℕ, 2 * w ≤ l.length →
    sumLoop l w = (sumXs (lastWindow l w), sumYs (lastWindow l w)) := by
  intro w
  induction w with
  | zero =>
    intro _
    simp [sumLoop, lastWindow, sumXs, sumYs]
  | succ w ih =>
    intro h
    have hw : 2 * w ≤ l.length := by omega
    have h1 : l.length - 2 * (w + 1) < l.length := by omega
    have h2 : l.length - 2 * (w + 1) + 1 < l.length := by omega
    have hdrop : lastWindow l (w + 1) =
        l[l.length - 2 * (w + 1)] :: l[l.length - 2 * (w + 1) + 1] :: lastWindow l w := by
      rw [lastWindow, List.drop_eq_getElem_cons h1, List.drop_eq_getElem_cons h2]
      rw [lastWindow, show l.length - 2 * (w + 1) + 1 + 1 = l.length - 2 * w from by omega]
    have hx : sumXs (lastWindow l (w + 1)) =
        l[l.length - 2 * (w + 1)] + sumXs (lastWindow l w) := by rw [hdrop]; rfl
    have hy : sumYs (lastWindow l (w + 1)) =
        l[l.length - 2 * (w + 1) + 1] + sumYs (lastWindow l w) := by rw [hdrop]; rfl
    have hidx : l.length - 2 - w * 2 = l.length - 2 * (w + 1) := by omega
    rw [sumLoop, ih hw, hx, hy]
    simp only [hidx]
    rw [List.getD_eq_getElem l 0 h1, List.getD_eq_getElem l 0 h2]
    exact Prod.ext (by ring) (by ring)

/-- C5: an accepted append onto a capture holding `n` raw pairs stores, as
the new public point, the arithmetic mean of the last
`min(smoothingWindow, n + 1)` raw pairs (all pairs while fewer than the
window, the trailing window once at least `smoothingWindow` raw points
exist), and extends the raw history by exactly the converted pointer
pair. -/
theorem smoothing_window_correct (cfg : DrawCfg) (ds : DrawingState) (pt : Pt)
    (c : CurrentStroke) (n : ℕ) (hc : ds.currentStroke = some c)
    (hn : c.rawPoints.length = 2 * n) (hacc : acceptsB cfg ds pt = true) :
    ∃ c' : CurrentStroke, (appendPoint cfg (some pt) ds).currentStroke = some c' ∧
      c'.rawPoints = c.rawPoints ++ [(cfg.toNative pt).x, (cfg.toNative pt).y] ∧
      c'.stroke.points = c.stroke.points ++
        [sumXs (lastWindow (c.rawPoints ++ [(cfg.toNative pt).x, (cfg.toNative pt).y])
            (min cfg.smoothingWindow (n + 1))) / ((min cfg.smoothingWindow (n + 1) : ℕ) : ℚ),
         sumYs (lastWindow (c.rawPoints ++ [(cfg.toNative pt).x, (cfg.toNative pt).y])
            (min cfg.smoothingWindow (n + 1))) / ((min cfg.smoothingWindow (n + 1) : ℕ) : ℚ)] := by
  rw [appendPoint_accepted cfg ds pt c hc hacc]
  refine ⟨appendResult cfg c (cfg.toNative pt), rfl, rfl, ?_⟩
  have hlen : (c.rawPoints ++ [(cfg.toNative pt).x, (cfg.toNative pt).y]).length = 2 * n + 2 := by
    simp [hn]
  have hwc : min cfg.smoothingWindow
      ((c.rawPoints ++ [(cfg.toNative pt).x, (cfg.toNative pt).y]).length / 2)
      = min cfg.smoothingWindow (n + 1) := by
    rw [hlen]
    congr 1
    omega
  simp only [appendResult, hwc]
  rw [sumLoop_eq_window _ _ (by rw [hlen]; omega)]

/-- Witness for C5: appending (30, 0) onto a capture with raw pairs
(0,0), (10,0), (20,0) stores the mean of the last three raw pairs. -/
theorem smoothing_window_correct_witness :
    ∃ c' : CurrentStroke, (appendPoint cfgD (some ⟨30, 0⟩) dsLive5).currentStroke = some c' ∧
      c'.rawPoints = curC.rawPoints ++ [(cfgD.toNative ⟨30, 0⟩).x, (cfgD.toNative ⟨30, 0⟩).y] ∧
      c'.stroke.points = curC.stroke.points ++
        [sumXs (lastWindow (curC.rawPoints ++ [(cfgD.toNative ⟨30, 0⟩).x, (cfgD.toNative ⟨30, 0⟩).y])
            (min cfgD.smoothingWindow (3 + 1))) / ((min cfgD.smoothingWindow (3 + 1) : ℕ) : ℚ),
         sumYs (lastWindow (curC.rawPoints ++ [(cfgD.toNative ⟨30, 0⟩).x, (cfgD.toNative ⟨30, 0⟩).y])
            (min cfgD.smoothingWindow (3 + 1))) / ((min cfgD.smoothingWindow (3 + 1) : ℕ) : ℚ)] :=
  smoothing_window_correct cfgD dsLive5 ⟨30, 0⟩ curC 3 rfl (by norm_num [curC])
    (by norm_num [acceptsB, dsLive5, curC, outOfBoundsPt, lastRawX, lastRawY, cfgD])
